import Mathlib

/-!
Verification of the girlvoice-ui DSP pipeline (src/simulator/src/dsp.rs).

The Rust source computes over `f32`; here every quantity is embedded as a
real number, so the theorems speak about the exact real-valued algorithm
the code implements.  Each Rust method becomes a Lean function on an
explicit state structure: mutation of `&mut self` becomes returning the
updated structure alongside the method's return value.
-/

namespace Girlvoice

noncomputable section

/-- `mel` from dsp.rs: `1127.0 * (1.0 + freq / 700.0).ln()`. -/
def mel (freq : ℝ) : ℝ :=
  1127 * Real.log (1 + freq / 700)

/-- `mel_to_freq` from dsp.rs: `700.0 * ((m / 1127.0).exp() - 1.0)`. -/
def mel_to_freq (m : ℝ) : ℝ :=
  700 * (Real.exp (m / 1127) - 1)

/-- State of `BandpassIIR`: coefficient arrays `b`, `a` (with `a[0]`
stored, as the source stores `[1.0, a1, a2]`), input delay line `x` and
output delay line `y`, all flattened to named fields. -/
@[ext]
structure BandpassIIR where
  b0 : ℝ
  b1 : ℝ
  b2 : ℝ
  a0 : ℝ
  a1 : ℝ
  a2 : ℝ
  x0 : ℝ
  x1 : ℝ
  x2 : ℝ
  y0 : ℝ
  y1 : ℝ

namespace BandpassIIR

/-- `BandpassIIR::new(low_freq, high_freq, sample_rate, order)` from dsp.rs.
The `order` argument is kept in the signature exactly as in the source,
where it is likewise never read. -/
def new (low_freq high_freq sample_rate : ℝ) (order : ℕ) : BandpassIIR :=
  let nyq := sample_rate / 2
  let low := low_freq / nyq
  let high := high_freq / nyq
  let bw := high - low
  let center := Real.sqrt (low * high)
  let omega := Real.tan (Real.pi * center)
  let bw_omega := Real.tan (Real.pi * bw)
  let q := omega / bw_omega
  let omega_sq := omega * omega
  let norm := 1 + omega / q + omega_sq
  { b0 := (omega / q) / norm
    b1 := 0
    b2 := -(omega / q) / norm
    a0 := 1
    a1 := 2 * (omega_sq - 1) / norm
    a2 := (1 - omega / q + omega_sq) / norm
    x0 := 0, x1 := 0, x2 := 0, y0 := 0, y1 := 0 }

/-- `BandpassIIR::process`: shift the input delay line, evaluate the
direct-form difference equation, shift the output delay line, return the
updated state together with the output sample. -/
def process (f : BandpassIIR) (input : ℝ) : BandpassIIR × ℝ :=
  let x0 := input
  let x1 := f.x0
  let x2 := f.x1
  let output := f.b0 * x0 + f.b1 * x1 + f.b2 * x2 - f.a1 * f.y0 - f.a2 * f.y1
  ({ f with x0 := x0, x1 := x1, x2 := x2, y0 := output, y1 := f.y0 }, output)

/-- `BandpassIIR::reset`: zero both delay lines, keep the coefficients. -/
def reset (f : BandpassIIR) : BandpassIIR :=
  { f with x0 := 0, x1 := 0, x2 := 0, y0 := 0, y1 := 0 }

/-- Feed a list of samples through the filter one at a time, collecting
the output samples (sequential `process` calls). -/
def run (f : BandpassIIR) : List ℝ → BandpassIIR × List ℝ
  | [] => (f, [])
  | s :: rest =>
    let r := f.process s
    let rr := r.1.run rest
    (rr.1, r.2 :: rr.2)

end BandpassIIR

/-- State of `EnvelopeFollower`: the smoothed value plus the attack and
release coefficients and their complements, all fixed at construction. -/
@[ext]
structure EnvelopeFollower where
  value : ℝ
  attack : ℝ
  release : ℝ
  attack_comp : ℝ
  release_comp : ℝ

namespace EnvelopeFollower

/-- `EnvelopeFollower::new(sample_rate, attack_ms, release_ms)` from
dsp.rs: half-life times converted to samples, then to exponential
smoothing coefficients. -/
def new (sample_rate attack_ms release_ms : ℝ) : EnvelopeFollower :=
  let attack_samples := sample_rate * attack_ms / 1000
  let release_samples := sample_rate * release_ms / 1000
  let attack := Real.exp (-1 / attack_samples)
  let release := Real.exp (-1 / release_samples)
  { value := 0
    attack := attack
    release := release
    attack_comp := 1 - attack
    release_comp := 1 - release }

/-- `EnvelopeFollower::process`: rectify the input, pick the attack pair
when the rectified input exceeds the current value and the release pair
otherwise, then blend.  Returns the updated state and the new value. -/
def process (e : EnvelopeFollower) (input : ℝ) : EnvelopeFollower × ℝ :=
  let abs_input := |input|
  let coeff := if e.value < abs_input then e.attack else e.release
  let comp := if e.value < abs_input then e.attack_comp else e.release_comp
  let value := e.value * coeff + abs_input * comp
  ({ e with value := value }, value)

/-- `EnvelopeFollower::reset`: value back to 0, coefficients kept. -/
def reset (e : EnvelopeFollower) : EnvelopeFollower :=
  { e with value := 0 }

/-- Sequential `process` calls over a list of inputs, collecting the
returned values. -/
def run (e : EnvelopeFollower) : List ℝ → EnvelopeFollower × List ℝ
  | [] => (e, [])
  | s :: rest =>
    let r := e.process s
    let rr := r.1.run rest
    (rr.1, r.2 :: rr.2)

/-- The state after `n` sequential `process` calls on the constant
input `c`. -/
def constRun (e : EnvelopeFollower) (c : ℝ) : ℕ → EnvelopeFollower
  | 0 => e
  | n + 1 => ((constRun e c n).process c).1

end EnvelopeFollower

/-- `VocoderChannel`: one band-pass filter plus one envelope follower and
the band's frequency metadata. -/
@[ext]
structure VocoderChannel where
  bandpass : BandpassIIR
  envelope : EnvelopeFollower
  center_freq : ℝ
  low_freq : ℝ
  high_freq : ℝ

namespace VocoderChannel

/-- `VocoderChannel::new` from dsp.rs: filter order argument 1, envelope
half-lives 1 ms attack / 25 ms release. -/
def new (low_freq high_freq sample_rate : ℝ) : VocoderChannel :=
  { bandpass := BandpassIIR.new low_freq high_freq sample_rate 1
    envelope := EnvelopeFollower.new sample_rate 1 25
    center_freq := (low_freq + high_freq) / 2
    low_freq := low_freq
    high_freq := high_freq }

/-- `VocoderChannel::process`: filter the sample, then track its
envelope. -/
def process (ch : VocoderChannel) (input : ℝ) : VocoderChannel × ℝ :=
  let fr := ch.bandpass.process input
  let er := ch.envelope.process fr.2
  ({ ch with bandpass := fr.1, envelope := er.1 }, er.2)

end VocoderChannel

/-- `VocoderDSP`: the ordered channels, the sample rate, the per-channel
peak trackers and the per-channel normalized energies. -/
@[ext]
structure VocoderDSP where
  channels : List VocoderChannel
  sample_rate : ℝ
  peak_values : List ℝ
  energies : List ℝ

namespace VocoderDSP

/-- `VocoderDSP::new` from dsp.rs: place `num_channels` center
frequencies uniformly in mel space between `start_freq` and `end_freq`,
build a channel around each with relative bandwidth 0.035, and allocate
the peak (all 1.0) and energy (all 0.0) arrays.  The `println!`
diagnostics of the source have no effect on the state and are omitted. -/
def new (num_channels : ℕ) (start_freq end_freq sample_rate : ℝ) : VocoderDSP :=
  let start_mel := mel start_freq
  let end_mel := mel end_freq
  let channel_mels := (List.range num_channels).map
    (fun i : ℕ => start_mel + (end_mel - start_mel) * (i : ℝ) / ((num_channels - 1 : ℕ) : ℝ))
  let channel_freqs := channel_mels.map mel_to_freq
  let bandwidth_param := (0.035 : ℝ)
  let channels := channel_freqs.map
    (fun freq => VocoderChannel.new (freq * (1 - bandwidth_param))
      (freq * (1 + bandwidth_param)) sample_rate)
  { channels := channels
    sample_rate := sample_rate
    peak_values := List.replicate num_channels 1
    energies := List.replicate num_channels 0 }

/-- One loop iteration of `VocoderDSP::process` for a single channel:
run the channel, update its peak tracker (instant rise, otherwise decay
by 0.9999 floored at 0.001), and compute the clamped normalized energy. -/
def stepChannel (sample : ℝ) (cp : VocoderChannel × ℝ) : VocoderChannel × ℝ × ℝ :=
  let r := cp.1.process sample
  let envelope := r.2
  let peak := if cp.2 < envelope then envelope else max (cp.2 * 0.9999) 0.001
  (r.1, peak, min (max (envelope / peak) 0) 1)

/-- `VocoderDSP::process`: run every channel on the sample, updating the
paired peak and energy entries in place; returns the updated state and
the energies it now stores. -/
def process (v : VocoderDSP) (sample : ℝ) : VocoderDSP × List ℝ :=
  let results := (v.channels.zip v.peak_values).map (stepChannel sample)
  let energies := results.map (fun r => r.2.2)
  ({ v with
      channels := results.map (fun r => r.1)
      peak_values := results.map (fun r => r.2.1)
      energies := energies }, energies)

/-- `VocoderDSP::process_buffer`: fold `process` over the samples and
return the stored energies after the last one. -/
def process_buffer (v : VocoderDSP) (samples : List ℝ) : VocoderDSP × List ℝ :=
  let v2 := samples.foldl (fun acc s => (acc.process s).1) v
  (v2, v2.energies)

/-- The state reached by issuing one `process` call per sample, in
order: the specification's description of buffer processing as M
sequential single-sample calls. -/
def processSeq (v : VocoderDSP) : List ℝ → VocoderDSP
  | [] => v
  | s :: rest => processSeq (v.process s).1 rest

end VocoderDSP

/-- The coefficient shape `EnvelopeFollower::new` establishes whenever
its half-life and sample-rate parameters are positive: both smoothing
coefficients lie strictly between 0 and 1 and each stored complement is
one minus its coefficient.  `process` never writes these fields. -/
def EnvelopeFollower.goodCoeffs (e : EnvelopeFollower) : Prop :=
  0 < e.attack ∧ e.attack < 1 ∧ e.attack_comp = 1 - e.attack ∧
  0 < e.release ∧ e.release < 1 ∧ e.release_comp = 1 - e.release

/-- The structural well-formedness a `VocoderDSP` keeps: the three
arrays share the configured length, every peak is at least the 0.001
floor, every energy lies in `[0, 1]`. -/
def VocoderDSP.invariant (N : ℕ) (v : VocoderDSP) : Prop :=
  v.channels.length = N ∧ v.peak_values.length = N ∧ v.energies.length = N ∧
  (∀ p ∈ v.peak_values, (0.001 : ℝ) ≤ p) ∧
  (∀ e ∈ v.energies, 0 ≤ e ∧ e ≤ 1)

/-- Spec-side definition (section 4.2, step 1-2): edges normalized by
Nyquist, center the geometric mean of the normalized edges, pre-warped
with `tan(pi * x)`. -/
def specWarpedCenter (low high sr : ℝ) : ℝ :=
  Real.tan (Real.pi * Real.sqrt (low / (sr / 2) * (high / (sr / 2))))

/-- Spec-side definition (section 4.2, step 1-2): normalized bandwidth
`high - low`, pre-warped with `tan(pi * x)`. -/
def specWarpedBandwidth (low high sr : ℝ) : ℝ :=
  Real.tan (Real.pi * (high / (sr / 2) - low / (sr / 2)))

/-- Spec-side definition (section 4.2, step 3): quality factor
`Q = warped-center / warped-bandwidth`. -/
def specQ (low high sr : ℝ) : ℝ :=
  specWarpedCenter low high sr / specWarpedBandwidth low high sr

end

/- ### Helper lemmas -/

lemma BandpassIIR.run_fst_reset (l : List ℝ) :
    ∀ f : BandpassIIR, ((f.run l).1).reset = f.reset := by
  induction l with
  | nil => intro f; rfl
  | cons s rest ih =>
    intro f
    show (((f.process s).1.run rest).1).reset = f.reset
    rw [ih (f.process s).1]
    rfl

lemma BandpassIIR.new_reset (low high sr : ℝ) (o : ℕ) :
    (BandpassIIR.new low high sr o).reset = BandpassIIR.new low high sr o := rfl

lemma VocoderDSP.foldl_eq_processSeq (samples : List ℝ) :
    ∀ v : VocoderDSP,
      samples.foldl (fun acc s => (acc.process s).1) v = VocoderDSP.processSeq v samples := by
  induction samples with
  | nil => intro v; rfl
  | cons s rest ih => intro v; exact ih (v.process s).1

lemma BandpassIIR.new_equal_edges_degenerate (low sr : ℝ) (o : ℕ) :
    (BandpassIIR.new low low sr o).b0 = 0 ∧
    (BandpassIIR.new low low sr o).b1 = 0 ∧
    (BandpassIIR.new low low sr o).b2 = 0 := by
  refine ⟨?_, rfl, ?_⟩ <;>
    simp [BandpassIIR.new, sub_self, Real.tan_zero, div_zero, zero_div]

lemma BandpassIIR.zero_ff_run (l : List ℝ) :
    ∀ f : BandpassIIR, f.b0 = 0 → f.b1 = 0 → f.b2 = 0 → f.y0 = 0 → f.y1 = 0 →
      (f.run l).2 = List.replicate l.length 0 := by
  induction l with
  | nil => intro f _ _ _ _ _; rfl
  | cons s rest ih =>
    intro f h0 h1 h2 hy0 hy1
    have hout : (f.process s).2 = 0 := by
      simp [BandpassIIR.process, h0, h1, h2, hy0, hy1]
    have hstep := ih (f.process s).1 h0 h1 h2
      (by simp [BandpassIIR.process, h0, h1, h2, hy0, hy1])
      (by simp [BandpassIIR.process, hy0])
    show ((f.process s).2 :: ((f.process s).1.run rest).2) = List.replicate (rest.length + 1) 0
    rw [hout, hstep, List.replicate_succ]

lemma VocoderDSP.new_invariant (N : ℕ) (s e sr : ℝ) :
    (VocoderDSP.new N s e sr).invariant N := by
  refine ⟨?_, ?_, ?_, ?_, ?_⟩
  · simp only [VocoderDSP.new, List.length_map, List.length_range]
  · simp only [VocoderDSP.new, List.length_replicate]
  · simp only [VocoderDSP.new, List.length_replicate]
  · intro p hp
    have : p = 1 := (List.eq_of_mem_replicate (by simpa [VocoderDSP.new] using hp))
    rw [this]; norm_num
  · intro x hx
    have : x = 0 := (List.eq_of_mem_replicate (by simpa [VocoderDSP.new] using hx))
    rw [this]; norm_num

lemma VocoderDSP.process_invariant (N : ℕ) (v : VocoderDSP) (s : ℝ)
    (h : v.invariant N) : ((v.process s).1).invariant N := by
  obtain ⟨hc, hp, _, hpeak, _⟩ := h
  have hlen : ((v.channels.zip v.peak_values).map (VocoderDSP.stepChannel s)).length = N := by
    simp [List.length_zip, hc, hp]
  refine ⟨?_, ?_, ?_, ?_, ?_⟩
  · simpa [VocoderDSP.process] using hlen
  · simpa [VocoderDSP.process] using hlen
  · simpa [VocoderDSP.process] using hlen
  · intro q hq
    simp only [VocoderDSP.process, List.map_map, List.mem_map] at hq
    obtain ⟨cp, hcp, hq⟩ := hq
    have hmem : cp.2 ∈ v.peak_values := (List.of_mem_zip hcp).2
    have hfloor := hpeak cp.2 hmem
    rw [← hq]
    simp only [Function.comp, VocoderDSP.stepChannel]
    by_cases hlt : cp.2 < (cp.1.process s).2
    · simp only [if_pos hlt]
      exact le_of_lt (lt_of_le_of_lt hfloor hlt)
    · simp only [if_neg hlt]
      exact le_max_right _ _
  · intro x hx
    simp only [VocoderDSP.process, List.map_map, List.mem_map] at hx
    obtain ⟨cp, _, hx⟩ := hx
    rw [← hx]
    simp only [Function.comp, VocoderDSP.stepChannel]
    exact ⟨le_min (le_max_right _ _) zero_le_one, min_le_right _ _⟩

lemma VocoderDSP.process_buffer_invariant (N : ℕ) (samples : List ℝ) :
    ∀ v : VocoderDSP, v.invariant N → ((v.process_buffer samples).1).invariant N := by
  induction samples with
  | nil => intro v h; exact h
  | cons s rest ih =>
    intro v h
    have step := VocoderDSP.process_invariant N v s h
    have := ih (v.process s).1 step
    simpa [VocoderDSP.process_buffer] using this

lemma real_thousand_pos : (0:ℝ) < 1000 := by norm_num

lemma real_twentyfive_pos : (0:ℝ) < 25 := by norm_num

lemma EnvelopeFollower.new_goodCoeffs (sr a r : ℝ)
    (hsr : 0 < sr) (ha : 0 < a) (hr : 0 < r) :
    (EnvelopeFollower.new sr a r).goodCoeffs := by
  have h1 : (0:ℝ) < sr * a / 1000 := by positivity
  have h2 : (0:ℝ) < sr * r / 1000 := by positivity
  refine ⟨Real.exp_pos _, ?_, rfl, Real.exp_pos _, ?_, rfl⟩
  · exact Real.exp_lt_one_iff.mpr (div_neg_of_neg_of_pos (by norm_num) h1)
  · exact Real.exp_lt_one_iff.mpr (div_neg_of_neg_of_pos (by norm_num) h2)

lemma EnvelopeFollower.process_goodCoeffs (e : EnvelopeFollower) (i : ℝ)
    (hg : e.goodCoeffs) : ((e.process i).1).goodCoeffs := hg

lemma EnvelopeFollower.process_fst_value (e : EnvelopeFollower) (i : ℝ) :
    ((e.process i).1).value = (e.process i).2 := rfl

lemma EnvelopeFollower.process_nonneg (e : EnvelopeFollower) (i : ℝ)
    (hg : e.goodCoeffs) (hv : 0 ≤ e.value) : 0 ≤ (e.process i).2 := by
  obtain ⟨ha0, ha1, hac, hr0, hr1, hrc⟩ := hg
  by_cases h : e.value < |i|
  · simp only [EnvelopeFollower.process, if_pos h, hac]
    exact add_nonneg (mul_nonneg hv ha0.le)
      (mul_nonneg (abs_nonneg i) (by linarith))
  · simp only [EnvelopeFollower.process, if_neg h, hrc]
    exact add_nonneg (mul_nonneg hv hr0.le)
      (mul_nonneg (abs_nonneg i) (by linarith))

lemma EnvelopeFollower.run_nonneg (l : List ℝ) :
    ∀ e : EnvelopeFollower, e.goodCoeffs → 0 ≤ e.value →
      0 ≤ ((e.run l).1).value ∧ ∀ out ∈ (e.run l).2, 0 ≤ out := by
  induction l with
  | nil =>
    intro e _ hv
    exact ⟨hv, by intro out hout; cases hout⟩
  | cons s rest ih =>
    intro e hg hv
    have hstep : 0 ≤ (e.process s).2 := e.process_nonneg s hg hv
    have hrest := ih (e.process s).1 (e.process_goodCoeffs s hg)
      (by rw [e.process_fst_value s]; exact hstep)
    refine ⟨hrest.1, ?_⟩
    intro out hout
    rcases List.mem_cons.mp hout with h | h
    · rw [h]; exact hstep
    · exact hrest.2 out h

lemma EnvelopeFollower.process_le_max (e : EnvelopeFollower) (i : ℝ)
    (hg : e.goodCoeffs) : (e.process i).2 ≤ max e.value |i| := by
  obtain ⟨ha0, ha1, hac, hr0, hr1, hrc⟩ := hg
  by_cases h : e.value < |i|
  · simp only [EnvelopeFollower.process, if_pos h, hac]
    have : e.value * e.attack + |i| * (1 - e.attack) ≤ |i| := by nlinarith
    exact this.trans (le_max_right _ _)
  · simp only [EnvelopeFollower.process, if_neg h, hrc]
    push_neg at h
    have : e.value * e.release + |i| * (1 - e.release) ≤ e.value := by nlinarith
    exact this.trans (le_max_left _ _)

lemma EnvelopeFollower.run_le_bound (B : ℝ) (l : List ℝ) :
    ∀ e : EnvelopeFollower, e.goodCoeffs → e.value ≤ B → (∀ i ∈ l, |i| ≤ B) →
      ((e.run l).1).value ≤ B ∧ ∀ out ∈ (e.run l).2, out ≤ B := by
  induction l with
  | nil =>
    intro e _ hv _
    exact ⟨hv, by intro out hout; cases hout⟩
  | cons s rest ih =>
    intro e hg hv hl
    have hs : |s| ≤ B := hl s (List.mem_cons_self s rest)
    have hstep : (e.process s).2 ≤ B :=
      (e.process_le_max s hg).trans (max_le hv hs)
    have hrest := ih (e.process s).1 (e.process_goodCoeffs s hg)
      (by rw [e.process_fst_value s]; exact hstep)
      (fun i hi => hl i (List.mem_cons_of_mem s hi))
    refine ⟨hrest.1, ?_⟩
    intro out hout
    rcases List.mem_cons.mp hout with h | h
    · rw [h]; exact hstep
    · exact hrest.2 out h

lemma EnvelopeFollower.const_step (e : EnvelopeFollower) (c : ℝ)
    (hg : e.goodCoeffs) (hc : 0 < c) (hv : e.value ≤ c) :
    ((e.process c).1).value ≤ c ∧ e.value ≤ ((e.process c).1).value ∧
      (e.value < c → e.value < ((e.process c).1).value) := by
  obtain ⟨ha0, ha1, hac, hr0, hr1, hrc⟩ := hg
  have habs : |c| = c := abs_of_pos hc
  by_cases h : e.value < |c|
  · have hlt : e.value < c := by rwa [habs] at h
    have hval : ((e.process c).1).value = e.value * e.attack + c * (1 - e.attack) := by
      simp only [EnvelopeFollower.process, habs, hac, if_pos hlt]
    refine ⟨?_, ?_, fun _ => ?_⟩ <;> rw [hval] <;>
      nlinarith [mul_pos (sub_pos.mpr hlt) ha0,
        mul_pos (sub_pos.mpr hlt) (sub_pos.mpr ha1)]
  · have hge : c ≤ e.value := by rw [habs] at h; exact not_lt.mp h
    have heq : e.value = c := le_antisymm hv hge
    have hval : ((e.process c).1).value = c := by
      simp only [EnvelopeFollower.process, habs, hrc, heq, if_neg (lt_irrefl c)]
      ring
    rw [hval, heq]
    exact ⟨le_refl c, le_refl c, fun hcon => hcon⟩

lemma EnvelopeFollower.constRun_invariant (e : EnvelopeFollower) (c : ℝ)
    (hg : e.goodCoeffs) (hc : 0 < c) (hv : e.value ≤ c) :
    ∀ n, (e.constRun c n).goodCoeffs ∧ (e.constRun c n).value ≤ c := by
  intro n
  induction n with
  | zero => exact ⟨hg, hv⟩
  | succ k ih =>
    exact ⟨(e.constRun c k).process_goodCoeffs c ih.1,
      ((e.constRun c k).const_step c ih.1 hc ih.2).1⟩

/- ### Claim theorems -/

/-- Claim C1 (corrected): the source performs no construction-time
validation.  `BandpassIIR::new` is a total constructor: for the invalid
edge pair `low = high` (violating `start < end`) it still returns a
filter, silently degenerate — all three feed-forward coefficients are 0,
so the filter output is identically zero on every input sequence. -/
theorem C1_no_construction_validation (low sr : ℝ) (o : ℕ) (inputs : List ℝ) :
    (BandpassIIR.new low low sr o).b0 = 0 ∧
    (BandpassIIR.new low low sr o).b1 = 0 ∧
    (BandpassIIR.new low low sr o).b2 = 0 ∧
    ((BandpassIIR.new low low sr o).run inputs).2 = List.replicate inputs.length 0 := by
  obtain ⟨h0, h1, h2⟩ := BandpassIIR.new_equal_edges_degenerate low sr o
  exact ⟨h0, h1, h2, BandpassIIR.zero_ff_run inputs _ h0 h1 h2 rfl rfl⟩

/-- Counterexample to claim C1 as stated: at the concrete invalid
configuration `low = high = 500`, `sample_rate = 44100` the constructor
does not fail — it returns a filter whose feed-forward coefficients are
all zero (a degenerate filter whose output is identically zero), the
very outcome the claim says is prevented. -/
theorem C1_counterexample :
    (BandpassIIR.new 500 500 44100 1).b0 = 0 ∧
    (BandpassIIR.new 500 500 44100 1).b1 = 0 ∧
    (BandpassIIR.new 500 500 44100 1).b2 = 0 ∧
    ((BandpassIIR.new 500 500 44100 1).run [1, 1, 1]).2 = [0, 0, 0] := by
  obtain ⟨h0, h1, h2⟩ := BandpassIIR.new_equal_edges_degenerate 500 44100 1
  refine ⟨h0, h1, h2, ?_⟩
  have := BandpassIIR.zero_ff_run [1, 1, 1] _ h0 h1 h2 rfl rfl
  simpa using this

/-- Claim C4: the analyzer invariant — for a `VocoderDSP` built with `N`
channels, the channels, peak and energy arrays have length `N`, every
peak is at least the 0.001 floor and every energy lies in `[0, 1]`,
after construction and after every `process` / `process_buffer` call. -/
theorem C4_analyzer_invariant :
    (∀ (N : ℕ) (s e sr : ℝ), (VocoderDSP.new N s e sr).invariant N) ∧
    (∀ (N : ℕ) (v : VocoderDSP) (x : ℝ),
      v.invariant N → ((v.process x).1).invariant N) ∧
    (∀ (N : ℕ) (v : VocoderDSP) (xs : List ℝ),
      v.invariant N → ((v.process_buffer xs).1).invariant N) :=
  ⟨VocoderDSP.new_invariant,
   VocoderDSP.process_invariant,
   fun N v xs h => VocoderDSP.process_buffer_invariant N xs v h⟩

/-- Claim C7: round trip of the mel-scale conversions — for every
frequency `f > 0` (in particular every `f` in `(0, Nyquist)`),
`mel_to_freq (mel f) = f` exactly as real-valued functions. -/
theorem C7_mel_roundtrip (f : ℝ) (hf : 0 < f) : mel_to_freq (mel f) = f := by
  have h1 : (0:ℝ) < 1 + f / 700 := by positivity
  unfold mel mel_to_freq
  rw [mul_div_cancel_left₀ _ (by norm_num : (1127:ℝ) ≠ 0), Real.exp_log h1]
  ring

/-- Witness for C7 at the concrete frequency 700 Hz. -/
theorem C7_witness : mel_to_freq (mel 700) = 700 :=
  C7_mel_roundtrip 700 (by norm_num)

/-- Claim C9: the `order` parameter of `BandpassIIR::new` has no effect —
for any two order values the constructed filters are identical, and so is
their behavior (states and outputs) on every input sequence. -/
theorem C9_order_has_no_effect (low high sr : ℝ) (o1 o2 : ℕ) (inputs : List ℝ) :
    BandpassIIR.new low high sr o1 = BandpassIIR.new low high sr o2 ∧
    (BandpassIIR.new low high sr o1).run inputs
      = (BandpassIIR.new low high sr o2).run inputs :=
  ⟨rfl, rfl⟩

/-- Claim C2: for every analyzer state and every sample list,
`process_buffer` leaves the analyzer in exactly the state reached by the
corresponding sequential `process` calls, and returns that final state's
energies (which is also what the last sequential `process` call
returns). -/
theorem C2_process_buffer_eq_sequential (v : VocoderDSP) (samples : List ℝ) :
    (v.process_buffer samples).1 = VocoderDSP.processSeq v samples ∧
    (v.process_buffer samples).2 = (VocoderDSP.processSeq v samples).energies ∧
    ∀ w : VocoderDSP, ∀ s : ℝ, (w.process s).2 = ((w.process s).1).energies := by
  refine ⟨VocoderDSP.foldl_eq_processSeq samples v, ?_, fun w s => rfl⟩
  show (samples.foldl (fun acc s => (acc.process s).1) v).energies
      = (VocoderDSP.processSeq v samples).energies
  rw [VocoderDSP.foldl_eq_processSeq samples v]

/-- Claim C3: resetting a `BandpassIIR` that was freshly constructed and
then fed any sample sequence yields exactly the freshly constructed
filter (coefficients unchanged, both histories zero), so every
subsequent input sequence produces identical outputs sample-for-sample. -/
theorem C3_reset_eq_fresh_construction (low high sr : ℝ) (o : ℕ) (pre post : List ℝ) :
    ((((BandpassIIR.new low high sr o).run pre).1).reset = BandpassIIR.new low high sr o) ∧
    (((((BandpassIIR.new low high sr o).run pre).1).reset.run post).2
      = ((BandpassIIR.new low high sr o).run post).2) := by
  have h : (((BandpassIIR.new low high sr o).run pre).1).reset = BandpassIIR.new low high sr o := by
    rw [BandpassIIR.run_fst_reset pre, BandpassIIR.new_reset]
  exact ⟨h, by rw [h]⟩

/-- Claim C8: `BandpassIIR::new` derives its coefficients exactly by the
spec's steps — with `omega` the pre-warped geometric-mean center of the
Nyquist-normalized edges and `Q` the ratio of warped center to warped
bandwidth, the result satisfies `b1 = 0`, `b2 = -b0`, leading feedback
coefficient `a0 = 1`, and `b0`, `a1`, `a2` equal the band-pass biquad
formulas in `omega` and `Q` normalized by `1 + omega/Q + omega^2`. -/
theorem C8_coefficient_derivation (low high sr : ℝ) (o : ℕ) :
    (BandpassIIR.new low high sr o).b1 = 0 ∧
    (BandpassIIR.new low high sr o).b2 = -(BandpassIIR.new low high sr o).b0 ∧
    (BandpassIIR.new low high sr o).a0 = 1 ∧
    (BandpassIIR.new low high sr o).b0 =
      (specWarpedCenter low high sr / specQ low high sr) /
        (1 + specWarpedCenter low high sr / specQ low high sr
          + specWarpedCenter low high sr * specWarpedCenter low high sr) ∧
    (BandpassIIR.new low high sr o).a1 =
      2 * (specWarpedCenter low high sr * specWarpedCenter low high sr - 1) /
        (1 + specWarpedCenter low high sr / specQ low high sr
          + specWarpedCenter low high sr * specWarpedCenter low high sr) ∧
    (BandpassIIR.new low high sr o).a2 =
      (1 - specWarpedCenter low high sr / specQ low high sr
          + specWarpedCenter low high sr * specWarpedCenter low high sr) /
        (1 + specWarpedCenter low high sr / specQ low high sr
          + specWarpedCenter low high sr * specWarpedCenter low high sr) := by
  refine ⟨rfl, ?_, rfl, rfl, rfl, rfl⟩
  show -(specWarpedCenter low high sr / specQ low high sr) / _
      = -((specWarpedCenter low high sr / specQ low high sr) / _)
  rw [neg_div]

/-- Claim C5: an `EnvelopeFollower` built with positive sample rate and
positive attack/release half-lives, starting from its constructed state
(value 0), keeps a non-negative stored value and returns a non-negative
value from every `process` call, for every input sequence of any sign. -/
theorem C5_envelope_never_negative (sr a r : ℝ)
    (hsr : 0 < sr) (ha : 0 < a) (hr : 0 < r) (inputs : List ℝ) :
    0 ≤ (((EnvelopeFollower.new sr a r).run inputs).1).value ∧
    ∀ out ∈ ((EnvelopeFollower.new sr a r).run inputs).2, 0 ≤ out :=
  EnvelopeFollower.run_nonneg inputs (EnvelopeFollower.new sr a r)
    (EnvelopeFollower.new_goodCoeffs sr a r hsr ha hr) (le_refl 0)

/-- Witness for C5 at sample rate 1000 Hz, half-lives 1 ms / 25 ms and
the concrete input sequence `[-2, 3]`. -/
theorem C5_witness :
    0 ≤ (((EnvelopeFollower.new 1000 1 25).run [-2, 3]).1).value ∧
    ∀ out ∈ ((EnvelopeFollower.new 1000 1 25).run [-2, 3]).2, 0 ≤ out :=
  C5_envelope_never_negative 1000 1 25 real_thousand_pos one_pos
    real_twentyfive_pos [-2, 3]

/-- Claim C6: an `EnvelopeFollower` with positive parameters driven by
the constant input `c > 0` converges monotonically to `c`: along the
iterate sequence the value never exceeds `c`, never decreases, and
strictly increases whenever it is still below `c`. -/
theorem C6_constant_input_monotone (sr a r c : ℝ)
    (hsr : 0 < sr) (ha : 0 < a) (hr : 0 < r) (hc : 0 < c) (n : ℕ) :
    ((EnvelopeFollower.new sr a r).constRun c n).value ≤ c ∧
    ((EnvelopeFollower.new sr a r).constRun c n).value
      ≤ ((EnvelopeFollower.new sr a r).constRun c (n + 1)).value ∧
    (((EnvelopeFollower.new sr a r).constRun c n).value < c →
      ((EnvelopeFollower.new sr a r).constRun c n).value
        < ((EnvelopeFollower.new sr a r).constRun c (n + 1)).value) := by
  have hg := EnvelopeFollower.new_goodCoeffs sr a r hsr ha hr
  have hstart : (EnvelopeFollower.new sr a r).value ≤ c := hc.le
  have hn := (EnvelopeFollower.new sr a r).constRun_invariant c hg hc hstart n
  have hstep := ((EnvelopeFollower.new sr a r).constRun c n).const_step c hn.1 hc hn.2
  exact ⟨hn.2, hstep.2.1, hstep.2.2⟩

/-- Witness for C6 at sample rate 1000 Hz, half-lives 1 ms / 25 ms,
constant input 1 and step index 0. -/
theorem C6_witness :
    ((EnvelopeFollower.new 1000 1 25).constRun 1 0).value ≤ 1 ∧
    ((EnvelopeFollower.new 1000 1 25).constRun 1 0).value
      ≤ ((EnvelopeFollower.new 1000 1 25).constRun 1 (0 + 1)).value ∧
    (((EnvelopeFollower.new 1000 1 25).constRun 1 0).value < 1 →
      ((EnvelopeFollower.new 1000 1 25).constRun 1 0).value
        < ((EnvelopeFollower.new 1000 1 25).constRun 1 (0 + 1)).value) :=
  C6_constant_input_monotone 1000 1 25 1 real_thousand_pos one_pos
    real_twentyfive_pos one_pos 0

/-- Claim C10 (implicit): each `process` step of a well-formed
`EnvelopeFollower` is a convex combination of the current value and the
rectified input, so it never exceeds `max value |input|`; consequently a
follower built with positive parameters (value 0) driven by inputs whose
absolute values are bounded by `B ≥ 0` never has value above `B`, and no
`process` call ever returns more than `B`. -/
theorem C10_envelope_bounded_by_input_bound (sr a r B : ℝ) (inputs : List ℝ)
    (hsr : 0 < sr) (ha : 0 < a) (hr : 0 < r)
    (hB : 0 ≤ B) (hin : ∀ i ∈ inputs, |i| ≤ B) :
    (∀ (e : EnvelopeFollower) (i : ℝ), e.goodCoeffs →
      (e.process i).2 ≤ max e.value |i|) ∧
    (((EnvelopeFollower.new sr a r).run inputs).1).value ≤ B ∧
    ∀ out ∈ ((EnvelopeFollower.new sr a r).run inputs).2, out ≤ B := by
  have hg := EnvelopeFollower.new_goodCoeffs sr a r hsr ha hr
  have hrun := EnvelopeFollower.run_le_bound B inputs
    (EnvelopeFollower.new sr a r) hg hB hin
  exact ⟨fun e i he => e.process_le_max i he, hrun.1, hrun.2⟩

/-- Witness for C10 at sample rate 1000 Hz, half-lives 1 ms / 25 ms,
bound 1 and the concrete input sequence `[0]`. -/
theorem C10_witness :
    (∀ (e : EnvelopeFollower) (i : ℝ), e.goodCoeffs →
      (e.process i).2 ≤ max e.value |i|) ∧
    (((EnvelopeFollower.new 1000 1 25).run [0]).1).value ≤ 1 ∧
    ∀ out ∈ ((EnvelopeFollower.new 1000 1 25).run [0]).2, out ≤ 1 :=
  C10_envelope_bounded_by_input_bound 1000 1 25 1 [0] real_thousand_pos
    one_pos real_twentyfive_pos zero_le_one (by simp)

end Girlvoice
